import Mathlib

/-!
Verification development for the Water-Level gauge reconciliation service
(`app.py`).  The Python source is shallowly embedded: the pure data
processing of `fetch_arcgis_data` (lines 99-143), the reconciliation
`update_google_sheets` (lines 145-203) and the scheduling policy of
`background_manager` (lines 205-232) are translated into executable Lean
functions.  Machine floats only ever flow through comparisons and copies in
the source, so numeric attribute values are modelled as rationals; the
Google-Sheets store is modelled as an association list of worksheets, each a
list of rows of string cells, exactly the granularity the code reads back
(`col_values`) and appends (`append_rows`).
-/

namespace WaterLevel

/-- Python `str.strip()`: drop whitespace from both ends (app.py line 109). -/
def pyStrip (s : String) : String :=
  String.mk (((s.data.dropWhile Char.isWhitespace).reverse.dropWhile Char.isWhitespace).reverse)

/-- Python `str.replace(c, r)` for one-character pattern and replacement
(app.py line 109 replaces "/" and ":"). -/
def replaceChar (s : String) (c r : Char) : String :=
  String.mk (s.data.map (fun a => if a = c then r else a))

/-- Python slicing `s[:n]` by characters (app.py line 176, `station_name[:30]`). -/
def pyTake (s : String) (n : Nat) : String :=
  String.mk (s.data.take n)

/-- Lexicographic comparison of character lists by code point, the order
Python uses on `str`. -/
def charsLe : List Char → List Char → Bool
  | [], _ => true
  | _ :: _, [] => false
  | a :: as, b :: bs =>
    if a.toNat < b.toNat then true
    else if b.toNat < a.toNat then false
    else charsLe as bs

/-- Python string comparison `s <= t` (used by `rows_to_add.sort(key=lambda x: x[0])`
and `sorted(grouped_data.keys())`). -/
def strLe (s t : String) : Bool :=
  charsLe s.data t.data

/-- Propositional form of the Python string order. -/
def strLeP (a b : String) : Prop := strLe a b = true

instance : DecidableRel strLeP := fun a b => by unfold strLeP; infer_instance

theorem charsLe_total (a b : List Char) : charsLe a b || charsLe b a := by
  induction a generalizing b with
  | nil => cases b <;> simp [charsLe]
  | cons x xs ih =>
    cases b with
    | nil => simp [charsLe]
    | cons y ys =>
      simp only [charsLe]
      rcases Nat.lt_trichotomy x.toNat y.toNat with h | h | h
      · simp [h]
      · simp only [h, Nat.lt_irrefl, if_false, if_true]
        simpa using ih ys
      · simp [h, Nat.lt_asymm h]

theorem charsLe_trans {a b c : List Char} (h1 : charsLe a b = true)
    (h2 : charsLe b c = true) : charsLe a c = true := by
  induction a generalizing b c with
  | nil => cases c <;> simp [charsLe]
  | cons x xs ih =>
    cases b with
    | nil => simp [charsLe] at h1
    | cons y ys =>
      cases c with
      | nil => simp [charsLe] at h2
      | cons z zs =>
        simp only [charsLe] at h1 h2 ⊢
        by_cases hxy : x.toNat < y.toNat <;> by_cases hyz : y.toNat < z.toNat <;>
            simp [hxy, hyz] at h1 h2 ⊢
        · omega
        · omega
        · omega
        · rcases h1 with ⟨hxy2, h1⟩
          rcases h2 with ⟨hyz2, h2⟩
          refine Or.inr ⟨by omega, ih h1 h2⟩

theorem strLeP_total (a b : String) : strLeP a b ∨ strLeP b a := by
  have := charsLe_total a.data b.data
  rcases Bool.or_eq_true_iff.mp this with h | h
  · exact Or.inl h
  · exact Or.inr h

theorem strLeP_trans {a b c : String} (h1 : strLeP a b) (h2 : strLeP b c) : strLeP a c :=
  charsLe_trans h1 h2

instance : IsTotal String strLeP := ⟨strLeP_total⟩

instance : IsTrans String strLeP := ⟨fun _ _ _ => strLeP_trans⟩

/-- Flood status classification of app.py lines 126-129: strictly descending
threshold comparison, a tier only applies when its threshold is strictly
positive, otherwise "Normal". -/
def statusOf (level alert_lvl minor_lvl major_lvl : ℚ) : String :=
  if level ≥ major_lvl ∧ major_lvl > 0 then "MAJOR FLOOD"
  else if level ≥ minor_lvl ∧ minor_lvl > 0 then "MINOR FLOOD"
  else if level ≥ alert_lvl ∧ alert_lvl > 0 then "ALERT"
  else "Normal"

/-- Severity rank of a status string, realising the tier order
Normal < Alert < MinorFlood < MajorFlood of the specification. -/
def statusRank (s : String) : Nat :=
  if s = "MAJOR FLOOD" then 3
  else if s = "MINOR FLOOD" then 2
  else if s = "ALERT" then 1
  else 0

/-- Value of a raw JSON attribute as seen by `float(...)` in app.py line 120:
absent (`None`), a value `float` converts to a number, or a value on which
`float` raises. -/
inductive PyValue
  | none
  | num (q : ℚ)
  | nonNumeric
deriving DecidableEq, Repr

/-- Python `float(level) if level is not None else 0.0` (app.py line 120):
absent defaults to 0.0, a non-numeric value raises. -/
def pyFloat : PyValue → Except Unit ℚ
  | PyValue.none => Except.ok 0
  | PyValue.num q => Except.ok q
  | PyValue.nonNumeric => Except.error ()

/-- One raw feature of the ArcGIS response, the fields app.py lines 99-141
reads.  Geometry coordinates default to 0 via `geom.get(_, 0)` when absent. -/
structure RawFeature where
  gauge : Option String
  water_level : PyValue
  alertpull : Option ℚ
  minorpull : Option ℚ
  majorpull : Option ℚ
  EditDate : Option Int
  basin : Option String
  geomX : Option ℚ
  geomY : Option ℚ
deriving DecidableEq, Repr

/-- The record dictionary built in app.py lines 131-140. -/
structure Record where
  name : String
  basin : Option String
  lat : ℚ
  lon : ℚ
  level : ℚ
  status : String
  time : String
  timestamp_raw : Option Int
deriving DecidableEq, Repr, Inhabited

/-- Normalization of one raw feature, app.py lines 105-140.  The result is
`ok none` when the feature is skipped (`gauge` absent or falsy), `ok (some r)`
on success, and `error` when `float(water_level)` raises.  `fmt` stands for
`datetime.fromtimestamp(ms / 1000).strftime(...)`, which depends on the host
timezone and is therefore a parameter; a falsy (absent or zero) `EditDate`
yields the sentinel "N/A". -/
def normalizeFeature (fmt : Int → String) (item : RawFeature) : Except Unit (Option Record) :=
  match item.gauge with
  | Option.none => Except.ok Option.none
  | Option.some raw_name =>
    if raw_name = "" then Except.ok Option.none
    else
      let clean_name := replaceChar (replaceChar (pyStrip raw_name) '/' '_') ':' '-'
      let time_str :=
        match item.EditDate with
        | Option.some d => if d = 0 then "N/A" else fmt d
        | Option.none => "N/A"
      match pyFloat item.water_level with
      | Except.error e => Except.error e
      | Except.ok level =>
        let alert_lvl := item.alertpull.getD 0
        let minor_lvl := item.minorpull.getD 0
        let major_lvl := item.majorpull.getD 0
        Except.ok (Option.some
          { name := clean_name
            basin := item.basin
            lat := item.geomY.getD 0
            lon := item.geomX.getD 0
            level := level
            status := statusOf level alert_lvl minor_lvl major_lvl
            time := time_str
            timestamp_raw := item.EditDate })

/-- Appending a record to `grouped_data[k]` for an insertion-ordered
`defaultdict(list)` represented as an association list. -/
def groupInsert (m : List (String × List Record)) (k : String) (r : Record) :
    List (String × List Record) :=
  match m with
  | [] => [(k, [r])]
  | (k2, rs) :: rest =>
    if k2 = k then (k2, rs ++ [r]) :: rest else (k2, rs) :: groupInsert rest k r

/-- The grouping loop of app.py lines 97-143 over a fetched feature list;
an exception raised while normalizing any feature loses the whole batch. -/
def fetchProcessAux (fmt : Int → String) (acc : List (String × List Record)) :
    List RawFeature → Except Unit (List (String × List Record))
  | [] => Except.ok acc
  | it :: rest =>
    match normalizeFeature fmt it with
    | Except.error e => Except.error e
    | Except.ok Option.none => fetchProcessAux fmt acc rest
    | Except.ok (Option.some r) => fetchProcessAux fmt (groupInsert acc r.name r) rest

/-- Grouped batch produced by `fetch_arcgis_data` from its fetched features. -/
def fetch_arcgis_process (fmt : Int → String) (features : List RawFeature) :
    Except Unit (List (String × List Record)) :=
  fetchProcessAux fmt [] features

/-- A worksheet row: a list of string cells, the granularity at which the
code reads the store back (`col_values`) and appends to it. -/
abbrev Row := List String

/-- The durable spreadsheet: the Master_Locations directory (absent until
first created) and one worksheet per station title. -/
structure Store where
  master : Option (List Row)
  sheets : List (String × List Row)
deriving DecidableEq, Repr

/-- Worksheet lookup by title; `none` models `gspread.WorksheetNotFound`. -/
def lookupSheet : List (String × List Row) → String → Option (List Row)
  | [], _ => Option.none
  | (k, rs) :: rest, t => if k = t then Option.some rs else lookupSheet rest t

/-- Replace the contents of the worksheet titled `t`, creating it at the end
of the spreadsheet when absent. -/
def setSheet (t : String) (rows : List Row) : List (String × List Row) → List (String × List Row)
  | [] => [(t, rows)]
  | (k, rs) :: rest => if k = t then (t, rows) :: rest else (k, rs) :: setSheet t rows rest

/-- Header row of Master_Locations (app.py line 158). -/
def masterHeader : Row := ["Gauge", "Basin", "Lat", "Lon"]

/-- Header row of a per-station history sheet (app.py line 182). -/
def histHeader : Row := ["DateTime", "Level (m)", "Status"]

/-- The row appended for one record (app.py line 196). -/
def recRow (r : Record) : Row := [r.time, toString r.level, r.status]

/-- Full first column of a sheet as `ws.col_values(1)` returns it
(header included), the dedup set of app.py line 187. -/
def timesOf (rows : List Row) : List String := rows.map (fun r => r.headD "")

/-- Sort key `x['timestamp_raw'] if x['timestamp_raw'] else 0` of app.py
line 166 (an absent or zero raw timestamp sorts as zero). -/
def tsKey (r : Record) : Int := r.timestamp_raw.getD 0

/-- First occurrence of a station key in the grouped batch (the grouping
dictionary has each key once). -/
def lookupGroup : List (String × List Record) → String → List Record
  | [], _ => []
  | (k, rs) :: rest, t => if k = t then rs else lookupGroup rest t

/-- The full Master_Locations contents rebuilt by app.py lines 160-171: a
header, then one row per batch station in sorted key order, taken from the
record with the greatest raw timestamp (stable ascending sort, last element).
The source indexes `records[-1]`, which cannot see an empty group because the
grouping loop only creates non-empty groups; an empty group defaults here. -/
def masterRows (grouped : List (String × List Record)) : List Row :=
  masterHeader ::
    ((grouped.map Prod.fst).insertionSort strLeP).map (fun station_name =>
      let records := lookupGroup grouped station_name
      let sorted := records.insertionSort (fun r1 r2 => tsKey r1 ≤ tsKey r2)
      let latest := sorted.getLastD default
      [latest.name, latest.basin.getD "", toString latest.lat, toString latest.lon])

/-- Row comparison used by `rows_to_add.sort(key=lambda x: x[0])`
(app.py line 201): by the first cell under Python string order. -/
def rowLe (r1 r2 : Row) : Prop := strLeP (r1.headD "") (r2.headD "")

instance : DecidableRel rowLe := fun r1 r2 => by unfold rowLe; infer_instance

instance : IsTotal Row rowLe := ⟨fun r1 r2 => strLeP_total (r1.headD "") (r2.headD "")⟩

instance : IsTrans Row rowLe := ⟨fun _ _ _ h1 h2 => strLeP_trans h1 h2⟩

/-- Injected failure while processing one station: the `ws.col_values(1)`
read (whose surrounding bare `except` makes `existing_dates` empty,
app.py lines 186-189) or the `ws.append_rows` write (uncaught,
app.py line 202). -/
inductive StationFail
  | colRead
  | append
deriving DecidableEq, Repr

/-- The failure-free environment. -/
def noFail : String → Option StationFail := fun _ => Option.none

/-- The rows app.py lines 191-196 marks as new: records whose display time is
not among the existing first-column values.  The membership set is not
updated while filtering, exactly as in the source. -/
def stationRowsToAdd (existing_dates : List String) (new_records : List Record) : List Row :=
  (new_records.filter (fun r => decide (¬ r.time ∈ existing_dates))).map recRow

/-- Per-station body of the loop in app.py lines 175-203.  An `error` result
models an exception escaping the loop body (only the injected append
failure); its payload is the store as already mutated (a created sheet
persists).  A `colRead` failure is swallowed by the bare `except` and leaves
`existing_dates` empty. -/
def processStation (oracle : String → Option StationFail) (st : Store)
    (station_name : String) (new_records : List Record) : Except Store Store :=
  let s_title := pyTake station_name 30
  let lookupRes := lookupSheet st.sheets s_title
  let rows := lookupRes.getD [histHeader]
  let st1 :=
    match lookupRes with
    | Option.some _ => st
    | Option.none => { st with sheets := setSheet s_title [histHeader] st.sheets }
  let existing_dates : List String :=
    if oracle station_name = Option.some StationFail.colRead then []
    else timesOf rows
  let rows_to_add := stationRowsToAdd existing_dates new_records
  if rows_to_add.isEmpty then Except.ok st1
  else if oracle station_name = Option.some StationFail.append then Except.error st1
  else Except.ok
    { st1 with sheets := setSheet s_title (rows ++ rows_to_add.insertionSort rowLe) st1.sheets }

/-- Store after lazily creating the history sheet `title` with its header
row (app.py lines 181-182). -/
def stationCreate (st : Store) (title : String) : Store :=
  { st with sheets := setSheet title [histHeader] st.sheets }

/-- Store after appending the sorted new rows for one station below the
current `rows0` of sheet `title` (app.py lines 199-202). -/
def stationAppend (st : Store) (title : String) (rows0 : List Row) (recs : List Record) :
    Store :=
  { st with
      sheets := setSheet title
        (rows0 ++ (stationRowsToAdd (timesOf rows0) recs).insertionSort rowLe)
        st.sheets }

/-- The station loop of app.py lines 175-203: sequential, an uncaught
exception aborts the remaining stations (error payload is the state written
so far). -/
def processStationsE (oracle : String → Option StationFail) :
    Store → List (String × List Record) → Except Store Store
  | st, [] => Except.ok st
  | st, (k, recs) :: rest =>
    match processStation oracle st k recs with
    | Except.ok st2 => processStationsE oracle st2 rest
    | Except.error st2 => Except.error st2

/-- Reconciliation of one grouped batch, app.py lines 145-203: an empty batch
returns before touching the store; otherwise Master_Locations is cleared and
fully rewritten from the batch, then each station sheet is appended to.  The
result is the persisted state whether or not the station loop raised. -/
def update_google_sheets (oracle : String → Option StationFail) (st : Store)
    (grouped : List (String × List Record)) : Store :=
  if grouped.isEmpty then st
  else
    let st1 : Store := { st with master := Option.some (masterRows grouped) }
    match processStationsE oracle st1 grouped with
    | Except.ok st2 => st2
    | Except.error st2 => st2

/-- Scheduling policy of `background_manager` (app.py lines 205-232): given
whether each successive cycle raises (`true` = the fetch or the sheet update
raised), the mode of each attempted cycle (`true` = full history).
`first_run` is reset only after a cycle completes without raising, because
the assignment on line 215 sits after the update call inside the `try`. -/
def background_manager_modes : Bool → List Bool → List Bool
  | _, [] => []
  | first_run, raised :: rest =>
    first_run :: background_manager_modes (first_run && raised) rest

/-- Display-time column of a station sheet excluding the header row, the
sequence the per-station history endpoint reads back (app.py line 270 skips
the header). -/
def sheetDataTimes (st : Store) (t : String) : List String :=
  (((lookupSheet st.sheets t).getD []).drop 1).map (fun r => r.headD "")

/-- A timestamp formatter fixed arbitrarily for concrete evaluations. -/
def fmtT : Int → String := fun _ => "t"

/-- The raw feature of the specification's worked example. -/
def exFeature : RawFeature :=
  { gauge := Option.some "Blue Nile/Station 1"
    water_level := PyValue.num (26/5)
    alertpull := Option.some 3
    minorpull := Option.some (9/2)
    majorpull := Option.some 6
    EditDate := Option.some 1700000000000
    basin := Option.none
    geomX := Option.some (65/2)
    geomY := Option.some (78/5) }

/-- A feature with a present station identifier and a water level on which
Python `float` raises. -/
def exBadLevelFeature : RawFeature :=
  { gauge := Option.some "G"
    water_level := PyValue.nonNumeric
    alertpull := Option.none
    minorpull := Option.none
    majorpull := Option.none
    EditDate := Option.none
    basin := Option.none
    geomX := Option.none
    geomY := Option.none }

/-- A feature with a present station identifier and an absent water level. -/
def exAbsentLevelFeature : RawFeature :=
  { exBadLevelFeature with water_level := PyValue.none }

/-- A record for station key "S" with the given display time, latitude and
raw timestamp. -/
def mkRec (t : String) (la : ℚ) (ts : Int) : Record :=
  { name := "S", basin := Option.none, lat := la, lon := 1, level := 0,
    status := "Normal", time := t, timestamp_raw := Option.some ts }

/-- The store before anything was ever written. -/
def store0 : Store := { master := Option.none, sheets := [] }

/-- Store after a first cycle persisted station "S" at display time "B",
raw timestamp 200. -/
def storeB : Store := update_google_sheets noFail store0 [("S", [mkRec "B" 1 200])]

/-- Environment in which the history append for station "A" raises. -/
def appendFailOracle : String → Option StationFail :=
  fun k => if k = "A" then Option.some StationFail.append else Option.none

/-- Environment in which reading the existing timestamps of station "S"
raises (caught by the bare `except`). -/
def colReadFailOracle : String → Option StationFail :=
  fun k => if k = "S" then Option.some StationFail.colRead else Option.none

/-- C10: reconciling an empty grouped batch performs no write at all: the
directory and every per-station sheet are exactly as before (the early
return of app.py lines 147-148 fires before any store access). -/
theorem C10_empty_batch_no_write (oracle : String → Option StationFail) (st : Store) :
    update_google_sheets oracle st [] = st := rfl

/-- C1 (divergence witness): the code overwrites a station's directory entry
from the current batch even when that batch is older than what the directory
already records.  Station "S" was last written from a reading with raw
timestamp 200; reconciling an incremental batch whose only reading for "S"
has raw timestamp 100 changes the Master_Locations contents, where the claim
requires them unchanged.  Nothing in app.py lines 153-171 consults any
previously recorded timestamp: the table is cleared and rebuilt from the
batch alone. -/
theorem C1_directory_overwritten_with_stale_batch :
    (update_google_sheets noFail storeB [("S", [mkRec "A" 9 100])]).master ≠ storeB.master ∧
      storeB.master =
        Option.some [["Gauge", "Basin", "Lat", "Lon"], ["S", "", "1", "1"]] ∧
      (update_google_sheets noFail storeB [("S", [mkRec "A" 9 100])]).master =
        Option.some [["Gauge", "Basin", "Lat", "Lon"], ["S", "", "9", "1"]] := by
  refine ⟨by decide, by decide, by decide⟩

/-- C2 (counterexample): a single batch containing two readings for station
"S" with the same display time "T" persists the pair twice; the dedup set of
app.py line 187 is read once before the loop and never extended, so both
copies pass the filter. -/
theorem C2_duplicate_within_batch :
    sheetDataTimes
        (update_google_sheets noFail store0 [("S", [mkRec "T" 1 200, mkRec "T" 1 200])])
        "S" = ["T", "T"] ∧
      ¬ (["T", "T"] : List String).Nodup := by
  refine ⟨by decide, by decide⟩

/-- C4 (counterexample): a first cycle persists display time "B" for station
"S"; a second cycle with a not-yet-persisted older display time "A" appends
it below, so the column reads ["B", "A"], which is decreasing.  The sort of
app.py line 201 orders only the rows added within one cycle. -/
theorem C4_history_order_violated :
    sheetDataTimes (update_google_sheets noFail storeB [("S", [mkRec "A" 9 100])]) "S" =
        ["B", "A"] ∧
      ¬ strLeP "B" "A" := by
  refine ⟨by decide, by decide⟩

/-- C8 (counterexample): when the first cycle raises, `first_run` is still
true (app.py line 215 runs only after a successful update), so the second
scheduled cycle again runs with full mode — two Full attempts, where the
claim allows exactly one. -/
theorem C8_full_mode_retried_after_failure :
    background_manager_modes true [true, false] = [true, true] ∧
      ((background_manager_modes true [true, false]).count true = 2) := by
  refine ⟨by decide, by decide⟩

/-- Mode of the cycle at index i for an arbitrary starting flag: full exactly
when the flag is set and every earlier cycle raised. -/
theorem background_manager_modes_getD (b : Bool) (fails : List Bool) (i : Nat)
    (h : i < fails.length) :
    (background_manager_modes b fails).getD i false = (b && (fails.take i).all (fun x => x)) := by
  induction fails generalizing b i with
  | nil => simp at h
  | cons f fs ih =>
    cases i with
    | zero => simp [background_manager_modes]
    | succ j =>
      have hj : j < fs.length := by simpa using h
      simp only [background_manager_modes, List.take_succ_cons, List.all_cons, List.getD_cons_succ]
      rw [ih (b && f) j hj]
      cases b <;> cases f <;> simp

/-- C8 (amended): the scheduler runs cycle i in Full mode exactly when every
earlier cycle raised; in particular a failed bootstrap is retried in Full
mode, and once one cycle succeeds every later cycle is Incremental. -/
theorem C8_full_until_first_success (fails : List Bool) (i : Nat) (h : i < fails.length) :
    (background_manager_modes true fails).getD i false = (fails.take i).all (fun x => x) := by
  rw [background_manager_modes_getD true fails i h, Bool.true_and]

/-- Witness for C8 (amended) at a concrete execution: the first cycle
succeeds, so the second cycle is Incremental. -/
theorem C8_full_until_first_success_witness :
    1 < [false, true].length ∧
      (background_manager_modes true [false, true]).getD 1 false =
        ([false, true].take 1).all (fun x => x) :=
  ⟨by decide, C8_full_until_first_success [false, true] 1 (by decide)⟩

/-- C9 (counterexample): with a batch of stations "A" then "B", an append
failure on "A" escapes the loop of app.py lines 175-203 (there is no
per-station catch around `append_rows`), so station "B" is never processed —
its sheet is never even created. -/
theorem C9_append_failure_aborts_rest :
    lookupSheet
        (update_google_sheets appendFailOracle store0
          [("A", [mkRec "T" 1 1]), ("B", [mkRec "T" 1 1])]).sheets
        "B" = Option.none := by
  decide

/-- C5: with strictly ordered positive thresholds the assigned tier is
non-decreasing in the level, and with all three thresholds zero every level
classifies as Normal, because each branch of app.py lines 127-129 requires
its threshold to be strictly positive. -/
theorem C5_tier_monotone (a m M l1 l2 : ℚ) (ha : 0 < a) (ham : a < m) (hmM : m < M)
    (h12 : l1 ≤ l2) :
    statusRank (statusOf l1 a m M) ≤ statusRank (statusOf l2 a m M) ∧
      ∀ l : ℚ, statusOf l 0 0 0 = "Normal" := by
  constructor
  · unfold statusOf
    split_ifs <;> simp_all [statusRank] <;> linarith
  · intro l
    unfold statusOf
    simp [lt_irrefl]

/-- Witness for C5 at thresholds (1, 2, 3) and levels 0 ≤ 5. -/
theorem C5_tier_monotone_witness :
    (0:ℚ) < 1 ∧ (1:ℚ) < 2 ∧ (2:ℚ) < 3 ∧ (0:ℚ) ≤ 5 ∧
      (statusRank (statusOf 0 1 2 3) ≤ statusRank (statusOf 5 1 2 3) ∧
        ∀ l : ℚ, statusOf l 0 0 0 = "Normal") :=
  ⟨by norm_num, by norm_num, by norm_num, by norm_num,
    C5_tier_monotone 1 2 3 0 5 (by norm_num) (by norm_num) (by norm_num) (by norm_num)⟩

/-- C6 (counterexample): the example feature normalizes to station key
"Blue Nile_Station 1", not the claimed "Blue_Nile_Station 1" — app.py
line 109 replaces only "/" and ":", never spaces, so the space between
"Blue" and "Nile" survives. -/
theorem C6_example_station_key_mismatch :
    (normalizeFeature fmtT exFeature).map (fun o => o.map Record.name) =
        Except.ok (Option.some "Blue Nile_Station 1") ∧
      "Blue Nile_Station 1" ≠ "Blue_Nile_Station 1" := by
  constructor
  · have hname : replaceChar (replaceChar (pyStrip "Blue Nile/Station 1") '/' '_') ':' '-'
        = "Blue Nile_Station 1" := by decide
    simp [normalizeFeature, exFeature, pyFloat, hname, Except.map]
  · decide

/-- C6 (amended): the example feature normalizes to station key
"Blue Nile_Station 1" and status MINOR FLOOD (5.2 is below the major
threshold 6 and at or above the minor threshold 4.5). -/
theorem C6_example_normalizes (fmt : Int → String) :
    normalizeFeature fmt exFeature =
      Except.ok (Option.some
        { name := "Blue Nile_Station 1"
          basin := Option.none
          lat := 78/5
          lon := 65/2
          level := 26/5
          status := "MINOR FLOOD"
          time := fmt 1700000000000
          timestamp_raw := Option.some 1700000000000 }) := by
  have hname : replaceChar (replaceChar (pyStrip "Blue Nile/Station 1") '/' '_') ':' '-'
      = "Blue Nile_Station 1" := by decide
  have hstat : statusOf (26/5) 3 (9/2) 6 = "MINOR FLOOD" := by
    unfold statusOf
    norm_num
  simp [normalizeFeature, exFeature, pyFloat, hname, hstat]

/-- C7 (counterexample): a feature with a present station identifier and a
non-numeric water level does not normalize with level 0.0 — `float` raises on
app.py line 120, outside any per-feature handler, so the whole batch is
lost rather than the feature skipped. -/
theorem C7_nonnumeric_level_raises :
    normalizeFeature fmtT exBadLevelFeature = Except.error () := rfl

/-- C7 (amended): for a feature whose station identifier is present and
non-empty, normalization succeeds whenever the water level is absent or
numeric, and an absent water level yields level 0.0. -/
theorem C7_level_default_when_absent (fmt : Int → String) (f : RawFeature) (g : String)
    (hg : f.gauge = Option.some g) (hne : g ≠ "") (hnum : f.water_level ≠ PyValue.nonNumeric) :
    ∃ r : Record, normalizeFeature fmt f = Except.ok (Option.some r) ∧
      (f.water_level = PyValue.none → r.level = 0) := by
  unfold normalizeFeature
  rw [hg]
  dsimp only
  rw [if_neg hne]
  cases hw : f.water_level with
  | nonNumeric => exact absurd hw hnum
  | none => exact ⟨_, rfl, fun _ => rfl⟩
  | num q => exact ⟨_, rfl, fun h => absurd h (by simp [hw])⟩

/-- Witness for C7 (amended) at a concrete feature with absent water level. -/
theorem C7_level_default_when_absent_witness :
    exAbsentLevelFeature.gauge = Option.some "G" ∧ ("G" : String) ≠ "" ∧
      exAbsentLevelFeature.water_level ≠ PyValue.nonNumeric ∧
      ∃ r, normalizeFeature fmtT exAbsentLevelFeature = Except.ok (Option.some r) ∧
        (exAbsentLevelFeature.water_level = PyValue.none → r.level = 0) :=
  ⟨rfl, by decide, by decide,
    C7_level_default_when_absent fmtT exAbsentLevelFeature "G" rfl (by decide) (by decide)⟩

theorem lookupSheet_setSheet_self (t : String) (rows : List Row)
    (sheets : List (String × List Row)) :
    lookupSheet (setSheet t rows sheets) t = Option.some rows := by
  induction sheets with
  | nil => simp [setSheet, lookupSheet]
  | cons p rest ih =>
    obtain ⟨k, rs⟩ := p
    by_cases h : k = t
    · simp [setSheet, h, lookupSheet]
    · simp [setSheet, h, lookupSheet, ih]

theorem lookupSheet_setSheet_other {t t2 : String} (h : t2 ≠ t) (rows : List Row)
    (sheets : List (String × List Row)) :
    lookupSheet (setSheet t rows sheets) t2 = lookupSheet sheets t2 := by
  induction sheets with
  | nil => simp [setSheet, lookupSheet, Ne.symm h]
  | cons p rest ih =>
    obtain ⟨k, rs⟩ := p
    by_cases hk : k = t
    · subst hk
      simp [setSheet, lookupSheet, Ne.symm h]
    · simp [setSheet, hk, lookupSheet, ih]

theorem stationRowsToAdd_eq_nil {E : List String} {recs : List Record}
    (h : stationRowsToAdd E recs = []) : ∀ r ∈ recs, r.time ∈ E := by
  intro r hr
  by_contra hmem
  have hf : r ∈ recs.filter (fun r => decide (¬ r.time ∈ E)) :=
    List.mem_filter.mpr ⟨hr, by simpa using hmem⟩
  have : recRow r ∈ stationRowsToAdd E recs := List.mem_map_of_mem recRow hf
  rw [h] at this
  exact List.not_mem_nil _ this

theorem mem_times_sorted {E : List String} {recs : List Record} {r : Record}
    (hr : r ∈ recs) (hmem : ¬ r.time ∈ E) :
    r.time ∈ timesOf ((stationRowsToAdd E recs).insertionSort rowLe) := by
  have hf : r ∈ recs.filter (fun r => decide (¬ r.time ∈ E)) :=
    List.mem_filter.mpr ⟨hr, by simpa using hmem⟩
  have hA : recRow r ∈ stationRowsToAdd E recs := List.mem_map_of_mem recRow hf
  have hS : recRow r ∈ (stationRowsToAdd E recs).insertionSort rowLe :=
    ((List.perm_insertionSort rowLe (stationRowsToAdd E recs)).mem_iff).mpr hA
  exact List.mem_map.mpr ⟨recRow r, hS, rfl⟩

theorem processStation_ok (oracle : String → Option StationFail) (st : Store) (k : String)
    (recs : List Record) (ho : oracle k ≠ Option.some StationFail.append) :
    ∃ st2, processStation oracle st k recs = Except.ok st2 ∧
      st2.master = st.master ∧
      (∀ t rows, lookupSheet st.sheets t = Option.some rows →
        ∃ ext, lookupSheet st2.sheets t = Option.some (rows ++ ext)) ∧
      (∃ rows2, lookupSheet st2.sheets (pyTake k 30) = Option.some rows2 ∧
        ∀ r ∈ recs, r.time ∈ timesOf rows2) := by
  simp only [processStation]
  cases hls : lookupSheet st.sheets (pyTake k 30) with
  | some rows0 =>
    dsimp only [Option.getD_some]
    by_cases hcr : oracle k = Option.some StationFail.colRead
    · rw [if_pos hcr]
      by_cases hemp : (stationRowsToAdd [] recs).isEmpty = true
      · rw [if_pos hemp]
        refine ⟨st, rfl, rfl, fun t rows hl => ⟨[], by simpa using hl⟩, rows0, hls, ?_⟩
        intro r hr
        exact absurd (stationRowsToAdd_eq_nil (List.isEmpty_iff.mp hemp) r hr)
          (List.not_mem_nil _)
      · rw [if_neg hemp, if_neg ho]
        refine ⟨_, rfl, rfl, ?_, ?_⟩
        · intro t rows hl
          dsimp only
          by_cases ht : t = pyTake k 30
          · subst ht
            rw [hls] at hl
            cases hl
            exact ⟨_, lookupSheet_setSheet_self _ _ _⟩
          · exact ⟨[], by rw [lookupSheet_setSheet_other ht, hl, List.append_nil]⟩
        · refine ⟨_, lookupSheet_setSheet_self _ _ _, ?_⟩
          intro r hr
          rw [timesOf, List.map_append]
          exact List.mem_append_right _ (mem_times_sorted hr (List.not_mem_nil _))
    · rw [if_neg hcr]
      by_cases hemp : (stationRowsToAdd (timesOf rows0) recs).isEmpty = true
      · rw [if_pos hemp]
        refine ⟨st, rfl, rfl, fun t rows hl => ⟨[], by simpa using hl⟩, rows0, hls, ?_⟩
        exact stationRowsToAdd_eq_nil (List.isEmpty_iff.mp hemp)
      · rw [if_neg hemp, if_neg ho]
        refine ⟨_, rfl, rfl, ?_, ?_⟩
        · intro t rows hl
          dsimp only
          by_cases ht : t = pyTake k 30
          · subst ht
            rw [hls] at hl
            cases hl
            exact ⟨_, lookupSheet_setSheet_self _ _ _⟩
          · exact ⟨[], by rw [lookupSheet_setSheet_other ht, hl, List.append_nil]⟩
        · refine ⟨_, lookupSheet_setSheet_self _ _ _, ?_⟩
          intro r hr
          rw [timesOf, List.map_append]
          by_cases hmem : r.time ∈ timesOf rows0
          · exact List.mem_append_left _ hmem
          · exact List.mem_append_right _ (mem_times_sorted hr hmem)
  | none =>
    dsimp only [Option.getD_none]
    by_cases hcr : oracle k = Option.some StationFail.colRead
    · rw [if_pos hcr]
      by_cases hemp : (stationRowsToAdd [] recs).isEmpty = true
      · rw [if_pos hemp]
        refine ⟨_, rfl, rfl, ?_, ?_⟩
        · intro t rows hl
          dsimp only
          have ht : t ≠ pyTake k 30 := fun he => by rw [he, hls] at hl; cases hl
          exact ⟨[], by rw [lookupSheet_setSheet_other ht, hl, List.append_nil]⟩
        · refine ⟨_, lookupSheet_setSheet_self _ _ _, ?_⟩
          intro r hr
          exact absurd (stationRowsToAdd_eq_nil (List.isEmpty_iff.mp hemp) r hr)
            (List.not_mem_nil _)
      · rw [if_neg hemp, if_neg ho]
        refine ⟨_, rfl, rfl, ?_, ?_⟩
        · intro t rows hl
          dsimp only
          have ht : t ≠ pyTake k 30 := fun he => by rw [he, hls] at hl; cases hl
          exact ⟨[], by
            rw [lookupSheet_setSheet_other ht, lookupSheet_setSheet_other ht, hl,
              List.append_nil]⟩
        · refine ⟨_, lookupSheet_setSheet_self _ _ _, ?_⟩
          intro r hr
          rw [timesOf, List.map_append]
          exact List.mem_append_right _ (mem_times_sorted hr (List.not_mem_nil _))
    · rw [if_neg hcr]
      by_cases hemp : (stationRowsToAdd (timesOf [histHeader]) recs).isEmpty = true
      · rw [if_pos hemp]
        refine ⟨_, rfl, rfl, ?_, ?_⟩
        · intro t rows hl
          dsimp only
          have ht : t ≠ pyTake k 30 := fun he => by rw [he, hls] at hl; cases hl
          exact ⟨[], by rw [lookupSheet_setSheet_other ht, hl, List.append_nil]⟩
        · refine ⟨_, lookupSheet_setSheet_self _ _ _, ?_⟩
          exact stationRowsToAdd_eq_nil (List.isEmpty_iff.mp hemp)
      · rw [if_neg hemp, if_neg ho]
        refine ⟨_, rfl, rfl, ?_, ?_⟩
        · intro t rows hl
          dsimp only
          have ht : t ≠ pyTake k 30 := fun he => by rw [he, hls] at hl; cases hl
          exact ⟨[], by
            rw [lookupSheet_setSheet_other ht, lookupSheet_setSheet_other ht, hl,
              List.append_nil]⟩
        · refine ⟨_, lookupSheet_setSheet_self _ _ _, ?_⟩
          intro r hr
          rw [timesOf, List.map_append]
          by_cases hmem : r.time ∈ timesOf [histHeader]
          · exact List.mem_append_left _ hmem
          · exact List.mem_append_right _ (mem_times_sorted hr hmem)

theorem processStationsE_ok (oracle : String → Option StationFail)
    (ho : ∀ k, oracle k ≠ Option.some StationFail.append)
    (b : List (String × List Record)) :
    ∀ st : Store, ∃ st2, processStationsE oracle st b = Except.ok st2 ∧
      st2.master = st.master ∧
      (∀ t rows, lookupSheet st.sheets t = Option.some rows →
        ∃ ext, lookupSheet st2.sheets t = Option.some (rows ++ ext)) ∧
      (∀ k recs, (k, recs) ∈ b → ∃ rows2,
        lookupSheet st2.sheets (pyTake k 30) = Option.some rows2 ∧
        ∀ r ∈ recs, r.time ∈ timesOf rows2) := by
  induction b with
  | nil =>
    intro st
    exact ⟨st, rfl, rfl, fun t rows hl => ⟨[], by simpa using hl⟩, by simp⟩
  | cons p rest ih =>
    intro st
    obtain ⟨k, recs⟩ := p
    obtain ⟨st1, he, hm, hg, rows1, hl1, hmem1⟩ := processStation_ok oracle st k recs (ho k)
    obtain ⟨st2, he2, hm2, hg2, hb2⟩ := ih st1
    refine ⟨st2, ?_, by rw [hm2, hm], ?_, ?_⟩
    · simp [processStationsE, he, he2]
    · intro t rows hl
      obtain ⟨e1, h1⟩ := hg t rows hl
      obtain ⟨e2, h2⟩ := hg2 t (rows ++ e1) h1
      exact ⟨e1 ++ e2, by rw [h2, List.append_assoc]⟩
    · intro k2 recs2 hmem
      rcases List.mem_cons.mp hmem with hhd | htl
      · rw [Prod.mk.injEq] at hhd
        obtain ⟨rfl, rfl⟩ := hhd
        obtain ⟨e2, h2⟩ := hg2 _ rows1 hl1
        refine ⟨rows1 ++ e2, h2, ?_⟩
        intro r hr
        rw [timesOf, List.map_append]
        exact List.mem_append_left _ (hmem1 r hr)
      · exact hb2 k2 recs2 htl

/-- C9 (amended): when no station's history append fails, the station loop
always runs to completion — a failure while reading a station's existing
timestamps is swallowed by the bare `except` of app.py lines 186-189 (the
dedup set is just treated as empty) and every station in the batch still
gets its sheet processed. -/
theorem C9_colread_failure_isolated (oracle : String → Option StationFail)
    (ho : ∀ k, oracle k ≠ Option.some StationFail.append) (st : Store)
    (b : List (String × List Record)) :
    ∃ st2, processStationsE oracle st b = Except.ok st2 ∧
      ∀ k recs, (k, recs) ∈ b → (lookupSheet st2.sheets (pyTake k 30)).isSome = true := by
  obtain ⟨st2, he, _, _, hcov⟩ := processStationsE_ok oracle ho b st
  refine ⟨st2, he, fun k recs hm => ?_⟩
  obtain ⟨rows, hl, _⟩ := hcov k recs hm
  simp [hl]

/-- Witness for C9 (amended): a column-read failure on station "S" does not
prevent its processing. -/
theorem C9_colread_failure_isolated_witness :
    (∀ k, colReadFailOracle k ≠ Option.some StationFail.append) ∧
      ∃ st2, processStationsE colReadFailOracle store0 [("S", [mkRec "T" 1 1])] =
          Except.ok st2 ∧
        ∀ k recs, (k, recs) ∈ [("S", [mkRec "T" 1 1])] →
          (lookupSheet st2.sheets (pyTake k 30)).isSome = true := by
  have hp : ∀ k, colReadFailOracle k ≠ Option.some StationFail.append := by
    intro k
    by_cases h : k = "S" <;> simp [colReadFailOracle, h]
  exact ⟨hp, C9_colread_failure_isolated colReadFailOracle hp store0 [("S", [mkRec "T" 1 1])]⟩

theorem processStation_noFail_skip (st : Store) (k : String) (recs : List Record)
    (rows : List Row) (hl : lookupSheet st.sheets (pyTake k 30) = Option.some rows)
    (hcov : ∀ r ∈ recs, r.time ∈ timesOf rows) :
    processStation noFail st k recs = Except.ok st := by
  have hempty : stationRowsToAdd (timesOf rows) recs = [] := by
    unfold stationRowsToAdd
    have : recs.filter (fun r => decide (¬ r.time ∈ timesOf rows)) = [] := by
      rw [List.filter_eq_nil]
      intro r hr
      simpa using hcov r hr
    rw [this]
    rfl
  simp [processStation, hl, noFail, hempty]

theorem processStationsE_noFail_skip (b : List (String × List Record)) (st : Store)
    (h : ∀ k recs, (k, recs) ∈ b → ∃ rows,
      lookupSheet st.sheets (pyTake k 30) = Option.some rows ∧
      ∀ r ∈ recs, r.time ∈ timesOf rows) :
    processStationsE noFail st b = Except.ok st := by
  induction b with
  | nil => rfl
  | cons p rest ih =>
    obtain ⟨k, recs⟩ := p
    obtain ⟨rows, hl, hcov⟩ := h k recs (List.mem_cons_self _ _)
    simp only [processStationsE, processStation_noFail_skip st k recs rows hl hcov]
    exact ih (fun k2 recs2 hm => h k2 recs2 (List.mem_cons_of_mem _ hm))

/-- C3: reconciling the same grouped batch twice in a row leaves the
persisted state of the first application unchanged — the directory rebuild
is a function of the batch alone, and on the second pass every display time
of the batch is already in each station's dedup set, so no rows are
appended. -/
theorem C3_reconcile_idempotent (st : Store) (b : List (String × List Record)) :
    update_google_sheets noFail (update_google_sheets noFail st b) b =
      update_google_sheets noFail st b := by
  cases b with
  | nil => rfl
  | cons p rest =>
    have hoAll : ∀ k, noFail k ≠ Option.some StationFail.append := fun k => by simp [noFail]
    obtain ⟨st2, he, hm, hg, hcov⟩ := processStationsE_ok noFail hoAll (p :: rest)
      ({ st with master := Option.some (masterRows (p :: rest)) })
    have h1 : update_google_sheets noFail st (p :: rest) = st2 := by
      unfold update_google_sheets
      rw [if_neg (by simp)]
      dsimp only
      rw [he]
    rw [h1]
    have hmaster : st2.master = Option.some (masterRows (p :: rest)) := hm
    have hset : ({ st2 with master := Option.some (masterRows (p :: rest)) } : Store) = st2 := by
      rw [← hmaster]
    unfold update_google_sheets
    rw [if_neg (by simp)]
    dsimp only
    rw [hset, processStationsE_noFail_skip (p :: rest) st2 hcov]

theorem stationCreate_sheets (st : Store) (title : String) :
    (stationCreate st title).sheets = setSheet title [histHeader] st.sheets := rfl

theorem stationAppend_sheets (st : Store) (title : String) (rows0 : List Row)
    (recs : List Record) :
    (stationAppend st title rows0 recs).sheets =
      setSheet title
        (rows0 ++ (stationRowsToAdd (timesOf rows0) recs).insertionSort rowLe) st.sheets := rfl

theorem processStation_noFail_cases (st : Store) (k : String) (recs : List Record) :
    (∃ rows0, lookupSheet st.sheets (pyTake k 30) = Option.some rows0 ∧
      ((stationRowsToAdd (timesOf rows0) recs = [] ∧
        processStation noFail st k recs = Except.ok st) ∨
       (stationRowsToAdd (timesOf rows0) recs ≠ [] ∧
        processStation noFail st k recs =
          Except.ok (stationAppend st (pyTake k 30) rows0 recs)))) ∨
    (lookupSheet st.sheets (pyTake k 30) = Option.none ∧
      ((stationRowsToAdd (timesOf [histHeader]) recs = [] ∧
        processStation noFail st k recs = Except.ok (stationCreate st (pyTake k 30))) ∨
       (stationRowsToAdd (timesOf [histHeader]) recs ≠ [] ∧
        processStation noFail st k recs =
          Except.ok
            (stationAppend (stationCreate st (pyTake k 30)) (pyTake k 30) [histHeader]
              recs)))) := by
  cases hls : lookupSheet st.sheets (pyTake k 30) with
  | some rows0 =>
    refine Or.inl ⟨rows0, rfl, ?_⟩
    by_cases hemp : stationRowsToAdd (timesOf rows0) recs = []
    · exact Or.inl ⟨hemp, by simp [processStation, hls, noFail, hemp]⟩
    · exact Or.inr ⟨hemp,
        by simp [processStation, stationAppend, hls, noFail, hemp, List.isEmpty_iff]⟩
  | none =>
    refine Or.inr ⟨rfl, ?_⟩
    by_cases hemp : stationRowsToAdd (timesOf [histHeader]) recs = []
    · exact Or.inl ⟨hemp, by simp [processStation, stationCreate, hls, noFail, hemp]⟩
    · exact Or.inr ⟨hemp,
        by simp [processStation, stationAppend, stationCreate, hls, noFail, hemp,
          List.isEmpty_iff]⟩

theorem timesOf_stationRowsToAdd (E : List String) (recs : List Record) :
    timesOf (stationRowsToAdd E recs) =
      (recs.filter (fun r => decide (¬ r.time ∈ E))).map Record.time := by
  unfold timesOf stationRowsToAdd
  rw [List.map_map]
  rfl

theorem nodup_times_append {rows0 : List Row} {recs : List Record}
    (h0 : (timesOf rows0).Nodup) (hrec : (recs.map Record.time).Nodup) :
    (timesOf (rows0 ++ (stationRowsToAdd (timesOf rows0) recs).insertionSort rowLe)).Nodup := by
  simp only [timesOf, List.map_append]
  have hpm : List.Perm
      (((stationRowsToAdd (timesOf rows0) recs).insertionSort rowLe).map
        (fun r => r.headD ""))
      ((stationRowsToAdd (timesOf rows0) recs).map (fun r => r.headD "")) :=
    (List.perm_insertionSort rowLe _).map _
  have hsub : (timesOf (stationRowsToAdd (timesOf rows0) recs)).Sublist
      (recs.map Record.time) := by
    rw [timesOf_stationRowsToAdd]
    exact (List.filter_sublist _).map _
  have hnd : List.Nodup
      (((stationRowsToAdd (timesOf rows0) recs).insertionSort rowLe).map
        (fun r => r.headD "")) :=
    hpm.symm.nodup (List.Nodup.sublist hsub hrec)
  refine List.Nodup.append h0 hnd ?_
  intro a ha hb
  have hb2 : a ∈ timesOf (stationRowsToAdd (timesOf rows0) recs) := hpm.subset hb
  rw [timesOf_stationRowsToAdd] at hb2
  obtain ⟨r, hrf, hrt⟩ := List.mem_map.mp hb2
  have hnm := (List.mem_filter.mp hrf).2
  simp at hnm
  rw [← hrt] at ha
  exact hnm ha

theorem processStation_noFail_nodup {st : Store} {k : String} {recs : List Record} {st2 : Store}
    (he : processStation noFail st k recs = Except.ok st2)
    (hrec : (recs.map Record.time).Nodup)
    (hst : ∀ t rows, lookupSheet st.sheets t = Option.some rows → (timesOf rows).Nodup) :
    ∀ t rows, lookupSheet st2.sheets t = Option.some rows → (timesOf rows).Nodup := by
  have hhead : (timesOf [histHeader]).Nodup := by decide
  rcases processStation_noFail_cases st k recs with
    ⟨rows0, hls, ⟨hemp, he2⟩ | ⟨hemp, he2⟩⟩ | ⟨hls, ⟨hemp, he2⟩ | ⟨hemp, he2⟩⟩ <;>
    rw [he] at he2 <;> injection he2 with h12 <;> subst h12
  · exact hst
  · intro t rows hl
    rw [stationAppend_sheets] at hl
    by_cases ht : t = pyTake k 30
    · subst ht
      rw [lookupSheet_setSheet_self] at hl
      injection hl with h
      subst h
      exact nodup_times_append (hst _ _ hls) hrec
    · rw [lookupSheet_setSheet_other ht] at hl
      exact hst _ _ hl
  · intro t rows hl
    rw [stationCreate_sheets] at hl
    by_cases ht : t = pyTake k 30
    · subst ht
      rw [lookupSheet_setSheet_self] at hl
      injection hl with h
      subst h
      exact hhead
    · rw [lookupSheet_setSheet_other ht] at hl
      exact hst _ _ hl
  · intro t rows hl
    rw [stationAppend_sheets, stationCreate_sheets] at hl
    by_cases ht : t = pyTake k 30
    · subst ht
      rw [lookupSheet_setSheet_self] at hl
      injection hl with h
      subst h
      exact nodup_times_append hhead hrec
    · rw [lookupSheet_setSheet_other ht, lookupSheet_setSheet_other ht] at hl
      exact hst _ _ hl

theorem processStationsE_noFail_nodup (b : List (String × List Record)) :
    ∀ st st2 : Store, processStationsE noFail st b = Except.ok st2 →
    (∀ k recs, (k, recs) ∈ b → (recs.map Record.time).Nodup) →
    (∀ t rows, lookupSheet st.sheets t = Option.some rows → (timesOf rows).Nodup) →
    ∀ t rows, lookupSheet st2.sheets t = Option.some rows → (timesOf rows).Nodup := by
  induction b with
  | nil =>
    intro st st2 he _ hst
    injection he with h
    subst h
    exact hst
  | cons p rest ih =>
    intro st st2 he hb hst
    obtain ⟨k, recs⟩ := p
    obtain ⟨st1, he1, _, _, _⟩ := processStation_ok noFail st k recs (by simp [noFail])
    rw [processStationsE, he1] at he
    exact ih st1 st2 he (fun k2 recs2 hm => hb k2 recs2 (List.mem_cons_of_mem _ hm))
      (processStation_noFail_nodup he1 (hb k recs (List.mem_cons_self _ _)) hst)

/-- C2 (amended): a pair already persisted is never appended again, so when
every station group of every batch has pairwise-distinct display times, the
first column of every sheet (header plus display times) stays duplicate-free
across any number of reconciliation cycles. -/
theorem C2_dedup_preserved (st : Store) (b : List (String × List Record))
    (hst : ∀ t rows, lookupSheet st.sheets t = Option.some rows → (timesOf rows).Nodup)
    (hb : ∀ k recs, (k, recs) ∈ b → (recs.map Record.time).Nodup) :
    ∀ t rows, lookupSheet (update_google_sheets noFail st b).sheets t = Option.some rows →
      (timesOf rows).Nodup := by
  cases b with
  | nil => exact hst
  | cons p rest =>
    obtain ⟨st2, he, _, _, _⟩ := processStationsE_ok noFail (fun k => by simp [noFail])
      (p :: rest) ({ st with master := Option.some (masterRows (p :: rest)) })
    have h1 : update_google_sheets noFail st (p :: rest) = st2 := by
      unfold update_google_sheets
      rw [if_neg (by simp)]
      dsimp only
      rw [he]
    rw [h1]
    exact processStationsE_noFail_nodup (p :: rest) _ st2 he hb hst

/-- Witness for C2 (amended) at the empty store and a one-station batch with
distinct display times. -/
theorem C2_dedup_preserved_witness :
    (∀ t rows, lookupSheet store0.sheets t = Option.some rows → (timesOf rows).Nodup) ∧
      (∀ k recs, (k, recs) ∈ [("S", [mkRec "A" 1 1, mkRec "B" 1 2])] →
        (recs.map Record.time).Nodup) ∧
      ∀ t rows,
        lookupSheet (update_google_sheets noFail store0
            [("S", [mkRec "A" 1 1, mkRec "B" 1 2])]).sheets t = Option.some rows →
          (timesOf rows).Nodup := by
  have h1 : ∀ t rows, lookupSheet store0.sheets t = Option.some rows →
      (timesOf rows).Nodup := by
    intro t rows hl
    simp [store0, lookupSheet] at hl
  have h2 : ∀ k recs, (k, recs) ∈ [("S", [mkRec "A" 1 1, mkRec "B" 1 2])] →
      (recs.map Record.time).Nodup := by
    intro k recs hm
    have h := List.mem_singleton.mp hm
    rw [Prod.mk.injEq] at h
    rw [h.2]
    decide
  exact ⟨h1, h2, C2_dedup_preserved store0 [("S", [mkRec "A" 1 1, mkRec "B" 1 2])] h1 h2⟩

theorem times_sorted_insertionSort (A : List Row) :
    (timesOf (A.insertionSort rowLe)).Pairwise strLeP := by
  have h := List.sorted_insertionSort rowLe A
  exact List.Pairwise.map _ (fun a b hab => hab) h

theorem sheetDataTimes_congr {st1 st2 : Store} {t : String}
    (h : lookupSheet st1.sheets t = lookupSheet st2.sheets t) :
    sheetDataTimes st1 t = sheetDataTimes st2 t := by
  simp [sheetDataTimes, h]

theorem processStation_noFail_sorted {st : Store} {k : String} {recs : List Record} {st2 : Store}
    (he : processStation noFail st k recs = Except.ok st2)
    (hsort : (sheetDataTimes st (pyTake k 30)).Pairwise strLeP)
    (hge : ∀ r ∈ recs, ∀ x ∈ sheetDataTimes st (pyTake k 30), strLeP x r.time) :
    (sheetDataTimes st2 (pyTake k 30)).Pairwise strLeP ∧
      ∀ t, t ≠ pyTake k 30 → lookupSheet st2.sheets t = lookupSheet st.sheets t := by
  rcases processStation_noFail_cases st k recs with
    ⟨rows0, hls, ⟨hemp, he2⟩ | ⟨hemp, he2⟩⟩ | ⟨hls, ⟨hemp, he2⟩ | ⟨hemp, he2⟩⟩ <;>
    rw [he] at he2 <;> injection he2 with h12 <;> subst h12
  · exact ⟨hsort, fun _ _ => rfl⟩
  · constructor
    · have hl2 : lookupSheet (stationAppend st (pyTake k 30) rows0 recs).sheets (pyTake k 30) =
          Option.some
            (rows0 ++ (stationRowsToAdd (timesOf rows0) recs).insertionSort rowLe) := by
        rw [stationAppend_sheets]
        exact lookupSheet_setSheet_self _ _ _
      have hdt : sheetDataTimes st (pyTake k 30) = (rows0.drop 1).map (fun r => r.headD "") := by
        simp [sheetDataTimes, hls]
      rw [sheetDataTimes, hl2]
      cases rows0 with
      | nil =>
        simp only [Option.getD_some, List.nil_append]
        exact List.Pairwise.sublist ((List.drop_sublist _ _).map _)
          (times_sorted_insertionSort _)
      | cons r0 rows0t =>
        simp only [Option.getD_some]
        rw [List.drop_append_of_le_length (by simp), List.map_append]
        refine List.pairwise_append.mpr ⟨?_, times_sorted_insertionSort _, ?_⟩
        · rw [hdt] at hsort
          exact hsort
        · intro a ha b hb
          have hbt : b ∈ timesOf (stationRowsToAdd (timesOf (r0 :: rows0t)) recs) :=
            ((List.perm_insertionSort rowLe _).map _).subset hb
          rw [timesOf_stationRowsToAdd] at hbt
          obtain ⟨r, hrf, hrt⟩ := List.mem_map.mp hbt
          have hrr : r ∈ recs := List.mem_of_mem_filter hrf
          have ha2 : a ∈ sheetDataTimes st (pyTake k 30) := by
            rw [hdt]
            exact ha
          rw [← hrt]
          exact hge r hrr a ha2
    · intro t ht
      rw [stationAppend_sheets, lookupSheet_setSheet_other ht]
  · constructor
    · have hl2 : lookupSheet (stationCreate st (pyTake k 30)).sheets (pyTake k 30) =
          Option.some [histHeader] := by
        rw [stationCreate_sheets]
        exact lookupSheet_setSheet_self _ _ _
      rw [sheetDataTimes, hl2]
      simp
    · intro t ht
      rw [stationCreate_sheets, lookupSheet_setSheet_other ht]
  · constructor
    · have hl2 : lookupSheet
          (stationAppend (stationCreate st (pyTake k 30)) (pyTake k 30) [histHeader]
            recs).sheets (pyTake k 30) =
          Option.some
            ([histHeader] ++
              (stationRowsToAdd (timesOf [histHeader]) recs).insertionSort rowLe) := by
        rw [stationAppend_sheets]
        exact lookupSheet_setSheet_self _ _ _
      rw [sheetDataTimes, hl2]
      simp only [Option.getD_some]
      rw [List.drop_append_of_le_length (by simp)]
      simp only [List.drop_succ_cons, List.drop_zero]
      exact List.Pairwise.sublist (List.Sublist.refl _) (times_sorted_insertionSort _)
    · intro t ht
      rw [stationAppend_sheets, stationCreate_sheets, lookupSheet_setSheet_other ht,
        lookupSheet_setSheet_other ht]

theorem processStationsE_noFail_sorted (b : List (String × List Record)) :
    ∀ st st2 : Store, processStationsE noFail st b = Except.ok st2 →
    (∀ t, (sheetDataTimes st t).Pairwise strLeP) →
    (∀ k recs, (k, recs) ∈ b →
      ∀ r ∈ recs, ∀ x ∈ sheetDataTimes st (pyTake k 30), strLeP x r.time) →
    (b.map (fun p => pyTake p.1 30)).Nodup →
    ∀ t, (sheetDataTimes st2 t).Pairwise strLeP := by
  induction b with
  | nil =>
    intro st st2 he h1 _ _
    injection he with h
    subst h
    exact h1
  | cons p rest ih =>
    intro st st2 he h1 h2 h3
    obtain ⟨k, recs⟩ := p
    obtain ⟨st1, he1, _, _, _⟩ := processStation_ok noFail st k recs (by simp [noFail])
    rw [processStationsE, he1] at he
    obtain ⟨hsorted1, hframe⟩ := processStation_noFail_sorted he1 (h1 _)
      (h2 k recs (List.mem_cons_self _ _))
    have h3c := h3
    rw [List.map_cons, List.nodup_cons] at h3c
    obtain ⟨hnot, h3t⟩ := h3c
    have h1n : ∀ t, (sheetDataTimes st1 t).Pairwise strLeP := by
      intro t
      by_cases ht : t = pyTake k 30
      · subst ht
        exact hsorted1
      · rw [sheetDataTimes_congr (hframe t ht)]
        exact h1 t
    have h2n : ∀ k2 recs2, (k2, recs2) ∈ rest →
        ∀ r ∈ recs2, ∀ x ∈ sheetDataTimes st1 (pyTake k2 30), strLeP x r.time := by
      intro k2 recs2 hm r hr x hx
      have htne : pyTake k2 30 ≠ pyTake k 30 := by
        intro heq
        exact hnot (List.mem_map.mpr ⟨(k2, recs2), hm, heq⟩)
      rw [sheetDataTimes_congr (hframe _ htne)] at hx
      exact h2 k2 recs2 (List.mem_cons_of_mem _ hm) r hr x hx
    exact ih st1 st2 he h1n h2n h3t

/-- C4 (amended): each cycle appends a station's new rows in ascending
display-time order, so the persisted column stays non-decreasing provided it
was non-decreasing before the cycle and every display time in a station's
batch group is at or after everything already persisted on that station's
sheet (with distinct sheet titles across the batch); a batch with an older
not-yet-persisted display time breaks the global order. -/
theorem C4_history_order_preserved (st : Store) (b : List (String × List Record))
    (h1 : ∀ t, (sheetDataTimes st t).Pairwise strLeP)
    (h2 : ∀ k recs, (k, recs) ∈ b →
      ∀ r ∈ recs, ∀ x ∈ sheetDataTimes st (pyTake k 30), strLeP x r.time)
    (h3 : (b.map (fun p => pyTake p.1 30)).Nodup) :
    ∀ t, (sheetDataTimes (update_google_sheets noFail st b) t).Pairwise strLeP := by
  cases b with
  | nil => exact h1
  | cons p rest =>
    obtain ⟨st2, he, _, _, _⟩ := processStationsE_ok noFail (fun k => by simp [noFail])
      (p :: rest) ({ st with master := Option.some (masterRows (p :: rest)) })
    have hupd : update_google_sheets noFail st (p :: rest) = st2 := by
      unfold update_google_sheets
      rw [if_neg (by simp)]
      dsimp only
      rw [he]
    rw [hupd]
    exact processStationsE_noFail_sorted (p :: rest) _ st2 he h1 h2 h3

/-- Witness for C4 (amended): the empty store and a one-station batch whose
display times "A" then "B" are ascending. -/
theorem C4_history_order_preserved_witness :
    (∀ t, (sheetDataTimes store0 t).Pairwise strLeP) ∧
      (∀ k recs, (k, recs) ∈ [("S", [mkRec "A" 1 1, mkRec "B" 1 2])] →
        ∀ r ∈ recs, ∀ x ∈ sheetDataTimes store0 (pyTake k 30), strLeP x r.time) ∧
      (([("S", [mkRec "A" 1 1, mkRec "B" 1 2])].map (fun p => pyTake p.1 30)).Nodup) ∧
      ∀ t, (sheetDataTimes
        (update_google_sheets noFail store0 [("S", [mkRec "A" 1 1, mkRec "B" 1 2])]) t).Pairwise
          strLeP := by
  have h1 : ∀ t, (sheetDataTimes store0 t).Pairwise strLeP := by
    intro t
    simp [sheetDataTimes, store0, lookupSheet]
  have h2 : ∀ k recs, (k, recs) ∈ [("S", [mkRec "A" 1 1, mkRec "B" 1 2])] →
      ∀ r ∈ recs, ∀ x ∈ sheetDataTimes store0 (pyTake k 30), strLeP x r.time := by
    intro k recs _ r _ x hx
    simp [sheetDataTimes, store0, lookupSheet] at hx
  have h3 : (([("S", [mkRec "A" 1 1, mkRec "B" 1 2])].map (fun p => pyTake p.1 30)).Nodup) := by
    decide
  exact ⟨h1, h2, h3,
    C4_history_order_preserved store0 [("S", [mkRec "A" 1 1, mkRec "B" 1 2])] h1 h2 h3⟩

end WaterLevel

